import Mathlib

/-!
Shallow embedding of the test-with toolkit (a Rust test-conditioning
library).  Each per-domain condition predicate of the source is translated
into an executable Lean function; environment-dependent queries (the
filesystem, the executable search path, the HTTP client, system resources,
the current timezone offset) are passed in as explicit parameters.  Build
aborts (proc-macro-error abort sites in the source) are modelled with
`Except.error`.
-/

namespace TestWith

/-- Rust `str::trim_matches('"')`: strip every leading and trailing
double-quote character. -/
def trimQuote (s : String) : String :=
  String.mk (((s.toList.dropWhile (fun c => c == '"')).reverse.dropWhile
    (fun c => c == '"')).reverse)

/-- Rust `str::split(',')` on the character list: `"a,,b"` gives
`["a", "", "b"]` and the empty string gives `[""]`. -/
def splitChar (sep : Char) : List Char → List (List Char)
  | [] => [[]]
  | c :: cs =>
    match splitChar sep cs with
    | [] => [[]]
    | h :: t => if c == sep then [] :: h :: t else (c :: h) :: t

/-- Rust `str::split(',')` at the `String` level. -/
def splitComma (s : String) : List String :=
  (splitChar ',' s.toList).map String.mk

/-- Rust `str::split("||")`: split on each non-overlapping occurrence of
the two-character token, scanned left to right. -/
def splitOrTok : List Char → List (List Char)
  | [] => [[]]
  | '|' :: '|' :: cs =>
    match splitOrTok cs with
    | [] => [[]]
    | h :: t => [] :: h :: t
  | c :: cs =>
    match splitOrTok cs with
    | [] => [[]]
    | h :: t => (c :: h) :: t

/-- Rust `str::split("||")` at the `String` level. -/
def splitOr (s : String) : List String :=
  (splitOrTok s.toList).map String.mk

/-- Rust `str::contains(',')`. -/
def hasComma (s : String) : Bool := s.toList.contains ','

/-- Rust `str::contains("||")`: at least one occurrence, equivalently the
`"||"`-split has more than one piece. -/
def hasOrTok (s : String) : Bool := (splitOrTok s.toList).length != 1

/-- Rust `str::join` / `Vec::join` with a separator. -/
def joinSep (sep : String) : List String → String
  | [] => ""
  | [x] => x
  | x :: xs => x ++ sep ++ joinSep sep xs

/-- Value of a run of decimal digits (`none` as soon as a non-digit
appears). -/
def digitsValGo : List Char → Nat → Option Nat
  | [], acc => some acc
  | c :: cs, acc =>
    if c.isDigit then digitsValGo cs (acc * 10 + (c.toNat - 48)) else none

/-- Value of a non-empty all-digit character list. -/
def digitsVal : List Char → Option Nat
  | [] => none
  | l => digitsValGo l 0

/-- Rust `str::parse::<usize>` (64-bit target): optional `+` sign, then
one or more decimal digits, rejecting values outside the type range. -/
def rustParseNat (s : String) : Option Nat :=
  let core : List Char → Option Nat := fun l =>
    (digitsVal l).bind (fun v => if v < 2 ^ 64 then some v else none)
  match s.toList with
  | '+' :: rest => core rest
  | l => core l

/-- Rust `str::parse::<i32>`: optional sign, then one or more decimal
digits, rejecting values outside the `i32` range. -/
def rustParseI32 (s : String) : Option Int :=
  match s.toList with
  | '+' :: rest =>
    (digitsVal rest).bind (fun v =>
      if v ≤ 2147483647 then some (v : Int) else none)
  | '-' :: rest =>
    (digitsVal rest).bind (fun v =>
      if v ≤ 2147483648 then some (-(v : Int)) else none)
  | l =>
    (digitsVal l).bind (fun v =>
      if v ≤ 2147483647 then some (v : Int) else none)

/-! ## File / path predicates (src/file.rs)

The filesystem is a parameter mapping a path string to what exists there:
nothing, a regular file, or a directory.  `metadata(p).is_err()` of the
source corresponds to the entry being absent; `Path::new(p).is_file()`
corresponds to the entry being a regular file. -/

inductive FsEntry
  | absent
  | file
  | dir
deriving DecidableEq

/-- `check_path_condition` of src/file.rs: comma-split the argument, a
path is missing when `metadata` fails on the quote-trimmed entry; the
missing list keeps the original (untrimmed) entries. -/
def check_path_condition (fs : String → FsEntry) (attr : String) :
    Bool × String :=
  let paths := splitComma attr
  let missing := paths.filter (fun p => fs (trimQuote p) == FsEntry.absent)
  let msg :=
    match missing with
    | [m] => "because path not found: " ++ m
    | _ => "because following paths not found: \n" ++ joinSep "\n" missing ++ "\n"
  (missing.isEmpty, msg)

/-- `check_file_condition` of src/file.rs: as the path predicate, but an
entry is missing unless it is a regular file (directories fail). -/
def check_file_condition (fs : String → FsEntry) (attr : String) :
    Bool × String :=
  let files := splitComma attr
  let missing := files.filter (fun p => !(fs (trimQuote p) == FsEntry.file))
  let msg :=
    match missing with
    | [m] => "because file not found: " ++ m
    | _ => "because following files not found: \n" ++ joinSep "\n" missing ++ "\n"
  (missing.isEmpty, msg)

/-! ## Executable predicates (src/executable.rs)

The `which` search is a parameter: `wh name = true` when the executable
resolves on the search path. -/

/-- `check_executable_and_condition`: comma-split, every entry must
resolve; missing ones are collected. -/
def check_executable_and_condition (wh : String → Bool) (attr : String) :
    Bool × String :=
  let exes := splitComma attr
  let missing := exes.filter (fun e => !wh (trimQuote e))
  let msg :=
    match missing with
    | [m] => "because executable not found: " ++ m
    | _ =>
      "because following executables not found: \n" ++ joinSep "\n" missing ++ "\n"
  (missing.isEmpty, msg)

/-- `check_executable_or_condition`: split on the `||` token, satisfied as
soon as one entry resolves, otherwise the reason embeds the original
specification text. -/
def check_executable_or_condition (wh : String → Bool) (attr : String) :
    Bool × String :=
  if (splitOr attr).any (fun e => wh (trimQuote e)) then
    (true, "")
  else
    (false, "because none of executables can be found: " ++ attr)

/-- `check_executable_condition`: using both combinators at once aborts
the build (modelled as `Except.error`), otherwise dispatch to the OR or
AND form. -/
def check_executable_condition (wh : String → Bool) (attr : String) :
    Except String (Bool × String) :=
  let hasAnd := hasComma attr
  let hasOr := hasOrTok attr
  if hasAnd && hasOr then
    Except.error "comma and the or token can not be used at the same time"
  else if hasOr then
    Except.ok (check_executable_or_condition wh attr)
  else
    Except.ok (check_executable_and_condition wh attr)

/-! ## Resource predicates (src/resource.rs)

`sysinfo` totals and the `byte_unit` parser are external boundaries,
passed as parameters.  The source re-parses the system total through
`Byte::parse_str("{n} B", false)`, which is the identity on a byte count,
so the comparison is directly between byte counts. -/

/-- `check_mem_condition`: parse the human-readable limit (build abort on
failure), and compare the total installed memory against it.  The reason
string is produced unconditionally. -/
def check_mem_condition (parseBytes : String → Option Nat)
    (totalMemory : Nat) (memSizeStr : String) :
    Except String (Bool × String) :=
  match parseBytes memSizeStr with
  | none => Except.error "system memory size can not get"
  | some lim =>
    Except.ok (decide (totalMemory ≥ lim),
      "because the memory less than " ++ memSizeStr)

/-- `check_cpu_core_condition`: parse the unsigned integer limit (build
abort on failure) and compare the logical core count against it.  The
reason string is produced unconditionally. -/
def check_cpu_core_condition (numCpus : Nat) (s : String) :
    Except String (Bool × String) :=
  match rustParseNat s with
  | none => Except.error "core limitation is incorrect"
  | some c =>
    Except.ok (decide (numCpus ≥ c), "because the cpu core less than " ++ s)

/-! ## HTTP / HTTPS predicates (src/http.rs)

The blocking client is a parameter mapping a full URL to the outcome of
`client.head(url).send()`.  In `reqwest`, `send()` returns `Ok` for every
received HTTP response regardless of its status code (no
`error_for_status` is called), and `Err` only when the request itself
fails (connection error, DNS failure, and so on). -/

inductive HttpOutcome
  | sendErr
  | response (status : Nat)
deriving DecidableEq

/-- `send().is_err()` of the source. -/
def send_is_err : HttpOutcome → Bool
  | HttpOutcome.sendErr => true
  | HttpOutcome.response _ => false

/-- `check_http_condition`: comma-split the targets, issue a HEAD request
against `http://{target}`, collect the targets whose request errs. -/
def check_http_condition (net : String → HttpOutcome) (attr : String) :
    Bool × String :=
  let links := splitComma attr
  let missing := (links.filter (fun l => send_is_err (net ("http://" ++ l)))).map
    (fun l => "http://" ++ l)
  let msg :=
    match missing with
    | [m] => "because " ++ m ++ " not response"
    | _ => "because following links not response: \n" ++ joinSep "\n" missing ++ "\n"
  (missing.isEmpty, msg)

/-- `check_https_condition`: as the HTTP form with the `https` scheme. -/
def check_https_condition (net : String → HttpOutcome) (attr : String) :
    Bool × String :=
  let links := splitComma attr
  let missing := (links.filter (fun l => send_is_err (net ("https://" ++ l)))).map
    (fun l => "https://" ++ l)
  let msg :=
    match missing with
    | [m] => "because " ++ m ++ " not response"
    | _ => "because following links not response: \n" ++ joinSep "\n" missing ++ "\n"
  (missing.isEmpty, msg)

/-! ## Timezone predicate (src/timezone.rs)

The current local UTC offset in minutes
(`chrono::Local::now().offset().local_minus_utc() / 60`) is a parameter.
Each token parses through a fixed abbreviation table, three ambiguous
abbreviations abort the build, and any other token falls back to a signed
integer number of hours (multiplied by 60). -/

inductive TzTok
  | abortTok (msg : String)
  | offset (minutes : Int)
  | failed
deriving DecidableEq

/-- One token of the compile-time timezone argument (the `match tz` of
`check_timezone`). -/
def parse_tz_token (tz : String) : TzTok :=
  match tz with
  | "NZDT" => TzTok.offset (13 * 60)
  | "NZST" => TzTok.offset (12 * 60)
  | "AEDT" => TzTok.offset (11 * 60)
  | "ACDT" => TzTok.offset (10 * 60 + 30)
  | "AEST" => TzTok.offset (10 * 60)
  | "ACST" => TzTok.offset (9 * 60 + 30)
  | "KST" | "JST" => TzTok.offset (9 * 60)
  | "HKT" | "WITA" | "AWST" => TzTok.offset (8 * 60)
  | "PST" => TzTok.abortTok "PST can be GMT+8 or GMT-8, please use +8 or -8 instead"
  | "WIB" => TzTok.offset (7 * 60)
  | "CST" => TzTok.abortTok "PST can be GMT+8 or GMT-6, please use +8 or -6 instead"
  | "5.5" | "+5.5" => TzTok.offset (5 * 60 + 30)
  | "IST" =>
    TzTok.abortTok "IST can be GMT+5.5, GMT+2 or GMT+1, please use +5.5, 2 or 1 instead"
  | "PKT" => TzTok.offset (5 * 60)
  | "EAT" | "EEST" | "IDT" | "MSK" => TzTok.offset (3 * 60)
  | "CAT" | "EET" | "CEST" | "SAST" => TzTok.offset (2 * 60)
  | "CET" | "WAT" | "WEST" | "BST" => TzTok.offset 60
  | "UTC" | "GMT" | "WET" => TzTok.offset 0
  | "NDT" | "-2.5" => TzTok.offset (-2 * 60 - 30)
  | "NST" | "-3.5" => TzTok.offset (-3 * 60 - 30)
  | "ADT" => TzTok.offset (-3 * 60)
  | "AST" | "EDT" => TzTok.offset (-4 * 60)
  | "EST" | "CDT" => TzTok.offset (-5 * 60)
  | "MDT" => TzTok.offset (-6 * 60)
  | "MST" | "PDT" => TzTok.offset (-7 * 60)
  | "AKDT" => TzTok.offset (-8 * 60)
  | "HDT" | "AKST" => TzTok.offset (-9 * 60)
  | "HST" => TzTok.offset (-10 * 60)
  | _ =>
    match rustParseI32 tz with
    | some v => TzTok.offset (v * 60)
    | none => TzTok.failed

/-- The token loop of `check_timezone`: fold over the tokens, aborting at
the first ambiguous abbreviation, accumulating whether some offset matched
and the failed tokens in order. -/
def check_timezone_go (currentTz : Int) :
    List String → Bool → List String → Except String (Bool × List String)
  | [], matchTz, inc => Except.ok (matchTz, inc)
  | tz :: rest, matchTz, inc =>
    match parse_tz_token tz with
    | TzTok.abortTok msg => Except.error msg
    | TzTok.offset off =>
      check_timezone_go currentTz rest (matchTz || decide (currentTz = off)) inc
    | TzTok.failed => check_timezone_go currentTz rest matchTz (inc ++ [tz])

/-- `check_timezone` of src/timezone.rs. -/
def check_timezone (currentTz : Int) (attr : String) :
    Except String (Bool × List String) :=
  check_timezone_go currentTz (splitComma attr) false []

/-- `check_tz_condition` of src/timezone.rs: compose the skip message from
the `check_timezone` outcome. -/
def check_tz_condition (currentTz : Int) (attr : String) :
    Except String (Bool × String) :=
  (check_timezone currentTz attr).map (fun r =>
    match r.2 with
    | [t] => (false, "because timezone " ++ t ++ " is incorrect")
    | [] =>
      if r.1 then (true, "")
      else
        (false,
          "because the test case not run in following timezone:\n" ++ attr ++ "\n")
    | incs =>
      (false,
        "because following timezones are incorrect:\n" ++ joinSep ", " incs ++ "\n"))

/-! ## Runtime timezone check (src/timezone.rs, `runtime_timezone`)

The generated check function parses each token only through
`tz.parse::<i32>()` — never through the abbreviation table — and the
macro itself inspects no token, so no argument aborts the build in the
runtime form.  The outcome is run-the-body or an error message; a message
carrying the reserved ignore-mark (a constant of the external delegate
harness, passed here as the parameter `pfx`) is reported as a skip. -/

inductive RtOutcome
  | run
  | err (msg : String)
deriving DecidableEq

/-- Debug-format of a string vector (`{:?}` of `Vec<&str>`). -/
def debugStrList (l : List String) : String :=
  "[" ++ joinSep ", " (l.map (fun s => "\x22" ++ s ++ "\x22")) ++ "]"

/-- The body of the check function generated by `runtime_timezone`. -/
def runtime_tz_check (pfx : String) (currentTz : Int) (attr : String) :
    RtOutcome :=
  let toks := splitComma attr
  let inc := toks.filter (fun t => (rustParseI32 t).isNone)
  let matchTz := toks.any (fun t =>
    match rustParseI32 t with
    | some v => decide (currentTz = v)
    | none => false)
  if matchTz && inc.isEmpty then RtOutcome.run
  else
    match inc with
    | [t] => RtOutcome.err (pfx ++ "because timezone " ++ t ++ " is incorrect")
    | [] =>
      RtOutcome.err
        (pfx ++ "because the test case not run in following timezone:\n" ++ attr ++ "\n")
    | incs =>
      RtOutcome.err
        (pfx ++ "because following timezones are incorrect:\n" ++ debugStrList incs ++ "\n")

/-! ## File lock (src/utils.rs `lock_macro`, src/lib.rs `lock`)

The attribute text is comma-split into a lock name and an optional wait
time (default 60).  The generated body tries, up to `wait` times with a
one-second sleep after each failed try, the atomic create-if-absent
(`File::create_new`) of the marker file; exhaustion panics, otherwise the
original body runs, then the marker is removed, and a removal failure
panics.  The outcome of each create attempt and of the removal are
parameters. -/

structure LockSpec where
  name : String
  wait : Nat
deriving DecidableEq

/-- Attribute parsing of `lock_macro`: first entry is the lock name,
optional second entry is the waiting seconds (build abort when it is not a
number); further entries are ignored.  A comma-split is never empty, so
the missing-name abort of the source is unreachable and kept only for
totality. -/
def lock_parse (attr : String) : Except String LockSpec :=
  match splitComma attr with
  | [] => Except.error "test_with lock need a name for the file lock"
  | [name] => Except.ok ⟨name, 60⟩
  | name :: sec :: _ =>
    match rustParseNat sec with
    | some wait => Except.ok ⟨name, wait⟩
    | none =>
      Except.error
        "The second parameter of test_with lock should be a number for waiting time"

/-- The `lock` proc-macro entry of src/lib.rs: applying it to a module
aborts the build, otherwise the function form is expanded. -/
def lock_dispatch (isModule : Bool) (attr : String) : Except String LockSpec :=
  if isModule then Except.error "test_with lock only works with fn"
  else lock_parse attr

inductive LockEvent
  | attempt (i : Nat)
  | sleep
  | runBody
  | removeMarker
  | panicMsg (msg : String)
deriving DecidableEq

/-- The acquisition loop
`for i in 0..wait { if create_new ok { break } sleep(1) }`: emits the
attempt events (and a sleep after each failed attempt) and whether the
marker was created. -/
def lock_loop (createOk : Nat → Bool) : Nat → Nat → List LockEvent × Bool
  | 0, _ => ([], false)
  | Nat.succ k, i =>
    if createOk i then ([LockEvent.attempt i], true)
    else
      let r := lock_loop createOk k (i + 1)
      (LockEvent.attempt i :: LockEvent.sleep :: r.1, r.2)

/-- The full generated body: acquisition loop, panic on exhaustion,
otherwise the original body followed by the marker removal, panicking if
the removal fails. -/
def lock_run (wait : Nat) (createOk : Nat → Bool) (removeOk : Bool) :
    List LockEvent :=
  let r := lock_loop createOk wait 0
  if r.2 then
    r.1 ++ [LockEvent.runBody, LockEvent.removeMarker] ++
      (if removeOk then [] else [LockEvent.panicMsg "Fail to unlock the testcase"])
  else
    r.1 ++ [LockEvent.panicMsg "Fail to acquire the lock for the testcase"]

inductive LockResult
  | panicAcquire
  | panicUnlock
  | done
deriving DecidableEq

/-- Final outcome of the generated body. -/
def lock_result (wait : Nat) (createOk : Nat → Bool) (removeOk : Bool) :
    LockResult :=
  if (lock_loop createOk wait 0).2 then
    if removeOk then LockResult.done else LockResult.panicUnlock
  else LockResult.panicAcquire

/-! ## Synchronous runner (src/runtime.rs `runner`)

A module handed to the generated `main` is its `_runtime_tests()` output:
whether it declares a `TestEnv` mock fixture and the pass/fail results of
its tests.  The generated `main` walks the module list in order; a fixture
module runs at once as an isolated batch (`run(..).exit_if_failed()`, then
`drop(env)`), a non-fixture module has its tests appended to the pooled
list, and the pooled list runs as one final batch whose conclusion decides
the exit status. -/

structure RtModule where
  hasEnv : Bool
  tests : List Bool
deriving DecidableEq

/-- A batch reports failure when some test in it failed. -/
def modFails (m : RtModule) : Bool := m.tests.any (fun b => !b)

inductive RunEvent
  | envCreate (m : Nat)
  | runTest (m : Nat) (t : Nat)
  | envDrop (m : Nat)
  | exitFailure
  | exitSuccess
deriving DecidableEq

/-- The run events of one batch of `n` tests of module `i`. -/
def testEvents (i : Nat) (n : Nat) : List RunEvent :=
  (List.range n).map (RunEvent.runTest i)

/-- Events of the pooled final batch. -/
def poolEvents (pool : List (Nat × Nat × Bool)) : List RunEvent :=
  pool.map (fun p => RunEvent.runTest p.1 p.2.1)

/-- Whether the pooled batch fails. -/
def poolFails (pool : List (Nat × Nat × Bool)) : Bool :=
  pool.any (fun p => !p.2.2)

/-- The indexed tests of module `i`, as pooled entries. -/
def modPool (i : Nat) (m : RtModule) : List (Nat × Nat × Bool) :=
  m.tests.enum.map (fun tb => (i, tb.1, tb.2))

/-- The loop body of the generated `main`: `i` is the index of the first
module of the remaining list, `pool` the non-fixture tests collected so
far.  A fixture batch runs immediately; when it fails the program exits
there with a failing status (the fixture is not dropped), otherwise the
fixture is dropped and the walk continues.  At the end the pooled batch
runs and the program exits with its conclusion. -/
def runner_go : List RtModule → Nat → List (Nat × Nat × Bool) → List RunEvent
  | [], _, pool =>
    poolEvents pool ++
      [if poolFails pool then RunEvent.exitFailure else RunEvent.exitSuccess]
  | m :: rest, i, pool =>
    if m.hasEnv then
      RunEvent.envCreate i :: testEvents i m.tests.length ++
        (if modFails m then [RunEvent.exitFailure]
         else RunEvent.envDrop i :: runner_go rest (i + 1) pool)
    else runner_go rest (i + 1) (pool ++ modPool i m)

/-- The trace of the program generated by `runner` on a module list. -/
def runner_exec (mods : List RtModule) : List RunEvent :=
  runner_go mods 0 []

/-! ## Asynchronous custom harness (src/runtime.rs `module`, async cases)

Each test of the module becomes a check function whose outcome is `Ok`,
or `Err` with an optional message; a message starting with the reserved
ignore-mark of the delegate harness counts the test as ignored (the mark
is 12 bytes long: the report prints the message with the first 12 bytes
stripped), any other error counts it as failed.  The generated
`_runtime_tests` prints one line per test and the summary line, and exits
the process with status 1 when some test failed. -/

inductive CheckOutcome
  | ok
  | err (msg : Option String)
deriving DecidableEq

structure AsyncTest where
  name : String
  result : CheckOutcome
deriving DecidableEq

/-- `msg.starts_with(RUNTIME_IGNORE_PREFIX)`. -/
def startsWithMark (pfx msg : String) : Bool :=
  pfx.toList.isPrefixOf msg.toList

/-- `msg[12..]` (the reserved mark is 12 bytes of ASCII). -/
def dropMark (msg : String) : String := String.mk (msg.toList.drop 12)

/-- Whether a check outcome counts as failed: an error whose message is
absent or does not carry the ignore-mark. -/
def outcomeFailed (pfx : String) : CheckOutcome → Bool
  | CheckOutcome.ok => false
  | CheckOutcome.err none => true
  | CheckOutcome.err (some m) => !startsWithMark pfx m

/-- Whether a check outcome counts as ignored. -/
def outcomeIgnored (pfx : String) : CheckOutcome → Bool
  | CheckOutcome.err (some m) => startsWithMark pfx m
  | _ => false

/-- The report line of one test:
`test {module}::{name} ... {ok | FAILED[, detail] | ignored, reason}`. -/
def test_line (modName pfx : String) (t : AsyncTest) : String :=
  "test " ++ modName ++ "::" ++ t.name ++ " ... " ++
    (match t.result with
     | CheckOutcome.ok => "ok"
     | CheckOutcome.err none => "FAILED"
     | CheckOutcome.err (some m) =>
       if startsWithMark pfx m then "ignored, " ++ dropMark m
       else "FAILED, " ++ m)

/-- The counting loop of the generated `_runtime_tests`: fold the
(passed, failed, ignored) counters over the tests in order. -/
def count_tests (pfx : String) (tests : List AsyncTest) : Nat × Nat × Nat :=
  tests.foldl
    (fun acc t =>
      match t.result with
      | CheckOutcome.ok => (acc.1 + 1, acc.2.1, acc.2.2)
      | CheckOutcome.err none => (acc.1, acc.2.1 + 1, acc.2.2)
      | CheckOutcome.err (some m) =>
        if startsWithMark pfx m then (acc.1, acc.2.1, acc.2.2 + 1)
        else (acc.1, acc.2.1 + 1, acc.2.2))
    (0, 0, 0)

/-- Decimal digits of a natural number (fuel-driven). -/
def natStrGo : Nat → Nat → List Char → List Char
  | 0, _, acc => acc
  | Nat.succ f, n, acc =>
    let d := Char.ofNat (48 + n % 10)
    if n < 10 then d :: acc else natStrGo f (n / 10) (d :: acc)

/-- Decimal rendering of a natural number. -/
def natStr (n : Nat) : String := String.mk (natStrGo (n + 1) n [])

/-- The summary line
`test result: {ok|failed}. {passed} passed; {failed} failed; {ignored} ignored;`. -/
def summary_line (passed failed ignored : Nat) : String :=
  "test result: " ++ (if failed > 0 then "failed" else "ok") ++ ". " ++
    natStr passed ++ " passed; " ++ natStr failed ++ " failed; " ++
    natStr ignored ++ " ignored;"

/-- The report and exit status of one module under the asynchronous custom
harness: the per-test lines in order, the summary line, and the process
exit status (`std::process::exit(1)` when some test failed, 0 when the
generated main runs to completion). -/
def module_report (modName pfx : String) (tests : List AsyncTest) :
    List String × String × Nat :=
  let lines := tests.map (test_line modName pfx)
  let c := count_tests pfx tests
  (lines, summary_line c.1 c.2.1 c.2.2, if c.2.1 > 0 then 1 else 0)

/-! ## Derived token classifiers (timezone) -/

/-- Whether a compile-time token parses to exactly the current offset. -/
def tokMatches (ct : Int) (t : String) : Bool :=
  match parse_tz_token t with
  | TzTok.offset off => decide (ct = off)
  | _ => false

/-- Whether a compile-time token fails to parse. -/
def tokFailed (t : String) : Bool := parse_tz_token t == TzTok.failed

/-- Whether a compile-time token is an ambiguous abbreviation that aborts
the build. -/
def tokAborts (t : String) : Bool :=
  match parse_tz_token t with
  | TzTok.abortTok _ => true
  | _ => false

/-! ## Lock and runner event classifiers, structural views -/

/-- Whether a lock event is a create attempt. -/
def isAttempt : LockEvent → Bool
  | LockEvent.attempt _ => true
  | _ => false

/-- Whether module index `j` exists and declares a fixture. -/
def isFixtureOf (mods : List RtModule) (j : Nat) : Bool :=
  match mods.get? j with
  | some m => m.hasEnv
  | none => false

/-- Events that belong to a fixture module: its creation, its tests and
its release. -/
def fixEvent (mods : List RtModule) : RunEvent → Bool
  | RunEvent.envCreate j => isFixtureOf mods j
  | RunEvent.runTest j _ => isFixtureOf mods j
  | RunEvent.envDrop j => isFixtureOf mods j
  | _ => false

/-- A test event of a module without a fixture. -/
def nonFixTest (mods : List RtModule) : RunEvent → Bool
  | RunEvent.runTest j _ =>
    (match mods.get? j with
     | some m => !m.hasEnv
     | none => false)
  | _ => false

/-- The fixture batches of the walk when none of them fails: for each
fixture module in order, creation, tests, release. -/
def okTrace : List RtModule → Nat → List RunEvent
  | [], _ => []
  | m :: rest, i =>
    if m.hasEnv then
      RunEvent.envCreate i :: testEvents i m.tests.length ++
        RunEvent.envDrop i :: okTrace rest (i + 1)
    else okTrace rest (i + 1)

/-- The pooled entries collected from the non-fixture modules. -/
def collectPool : List RtModule → Nat → List (Nat × Nat × Bool)
  | [], _ => []
  | m :: rest, i =>
    if m.hasEnv then collectPool rest (i + 1)
    else modPool i m ++ collectPool rest (i + 1)

/-- The walk truncated at the first failing fixture batch (whose fixture
is not released: the process exits before the drop). -/
def failTrace : List RtModule → Nat → List RunEvent
  | [], _ => []
  | m :: rest, i =>
    if m.hasEnv then
      if modFails m then RunEvent.envCreate i :: testEvents i m.tests.length
      else
        RunEvent.envCreate i :: testEvents i m.tests.length ++
          RunEvent.envDrop i :: failTrace rest (i + 1)
    else failTrace rest (i + 1)

/-! ## Helper lemmas -/

theorem str_append_ne_empty (s t : String) (h : s.length ≠ 0) : s ++ t ≠ "" := by
  intro heq
  have hl := congrArg String.length heq
  rw [String.length_append] at hl
  have h0 : ("" : String).length = 0 := rfl
  omega

theorem str_append3_ne_empty (s t u : String) (h : s.length ≠ 0) :
    s ++ t ++ u ≠ "" := by
  apply str_append_ne_empty
  rw [String.length_append]
  omega

/-- The reason of the path predicate is never empty (both branches start
with a fixed non-empty sentence). -/
theorem check_path_reason_ne_empty (fs : String → FsEntry) (attr : String) :
    (check_path_condition fs attr).2 ≠ "" := by
  simp only [check_path_condition]
  generalize (splitComma attr).filter (fun p => fs (trimQuote p) == FsEntry.absent) = missing
  match missing with
  | [] => exact str_append3_ne_empty _ _ _ (by decide)
  | [m] => exact str_append_ne_empty _ _ (by decide)
  | m :: m2 :: rest => exact str_append3_ne_empty _ _ _ (by decide)

/-- The reason of the file predicate is never empty. -/
theorem check_file_reason_ne_empty (fs : String → FsEntry) (attr : String) :
    (check_file_condition fs attr).2 ≠ "" := by
  simp only [check_file_condition]
  generalize (splitComma attr).filter (fun p => !(fs (trimQuote p) == FsEntry.file)) = missing
  match missing with
  | [] => exact str_append3_ne_empty _ _ _ (by decide)
  | [m] => exact str_append_ne_empty _ _ (by decide)
  | m :: m2 :: rest => exact str_append3_ne_empty _ _ _ (by decide)

/-- The reason of the AND-mode executable predicate is never empty. -/
theorem check_executable_and_reason_ne_empty (wh : String → Bool) (attr : String) :
    (check_executable_and_condition wh attr).2 ≠ "" := by
  simp only [check_executable_and_condition]
  generalize (splitComma attr).filter (fun e => !wh (trimQuote e)) = missing
  match missing with
  | [] => exact str_append3_ne_empty _ _ _ (by decide)
  | [m] => exact str_append_ne_empty _ _ (by decide)
  | m :: m2 :: rest => exact str_append3_ne_empty _ _ _ (by decide)

/-- The reason of the HTTP predicate is never empty. -/
theorem check_http_reason_ne_empty (net : String → HttpOutcome) (attr : String) :
    (check_http_condition net attr).2 ≠ "" := by
  simp only [check_http_condition]
  generalize ((splitComma attr).filter
      (fun l => send_is_err (net ("http://" ++ l)))).map (fun l => "http://" ++ l) = missing
  match missing with
  | [] => exact str_append3_ne_empty _ _ _ (by decide)
  | [m] => exact str_append3_ne_empty _ _ _ (by decide)
  | m :: m2 :: rest => exact str_append3_ne_empty _ _ _ (by decide)

/-- The reason of the HTTPS predicate is never empty. -/
theorem check_https_reason_ne_empty (net : String → HttpOutcome) (attr : String) :
    (check_https_condition net attr).2 ≠ "" := by
  simp only [check_https_condition]
  generalize ((splitComma attr).filter
      (fun l => send_is_err (net ("https://" ++ l)))).map (fun l => "https://" ++ l) = missing
  match missing with
  | [] => exact str_append3_ne_empty _ _ _ (by decide)
  | [m] => exact str_append3_ne_empty _ _ _ (by decide)
  | m :: m2 :: rest => exact str_append3_ne_empty _ _ _ (by decide)

/-! ## Claim C1 -/

/-- C1 (counterexample).  The claim says a satisfied predicate returns an
empty reason; the file predicate on an existing file returns satisfied
with the plural not-found sentence built from the empty list, which is a
non-empty reason. -/
theorem c1_counterexample :
    (check_file_condition (fun _ => FsEntry.file) "a").1 = true ∧
      (check_file_condition (fun _ => FsEntry.file) "a").2 ≠ "" := by
  constructor
  · decide
  · decide

/-- C1 (amended).  For every predicate embedded here, the reason is
non-empty whenever the predicate is unsatisfied; the converse of the
original claim fails (see the counterexample): a satisfied predicate may
carry a non-empty (unused) reason. -/
theorem c1_reason_nonempty_when_unsatisfied :
    (∀ fs attr, (check_path_condition fs attr).1 = false →
        (check_path_condition fs attr).2 ≠ "") ∧
    (∀ fs attr, (check_file_condition fs attr).1 = false →
        (check_file_condition fs attr).2 ≠ "") ∧
    (∀ wh attr, (check_executable_and_condition wh attr).1 = false →
        (check_executable_and_condition wh attr).2 ≠ "") ∧
    (∀ wh attr, (check_executable_or_condition wh attr).1 = false →
        (check_executable_or_condition wh attr).2 ≠ "") ∧
    (∀ wh attr b r, check_executable_condition wh attr = Except.ok (b, r) →
        b = false → r ≠ "") ∧
    (∀ pb total s b r, check_mem_condition pb total s = Except.ok (b, r) →
        b = false → r ≠ "") ∧
    (∀ n s b r, check_cpu_core_condition n s = Except.ok (b, r) →
        b = false → r ≠ "") ∧
    (∀ net attr, (check_http_condition net attr).1 = false →
        (check_http_condition net attr).2 ≠ "") ∧
    (∀ net attr, (check_https_condition net attr).1 = false →
        (check_https_condition net attr).2 ≠ "") ∧
    (∀ ct attr b r, check_tz_condition ct attr = Except.ok (b, r) →
        b = false → r ≠ "") := by
  refine ⟨?_, ?_, ?_, ?_, ?_, ?_, ?_, ?_, ?_, ?_⟩
  · exact fun fs attr _ => check_path_reason_ne_empty fs attr
  · exact fun fs attr _ => check_file_reason_ne_empty fs attr
  · exact fun wh attr _ => check_executable_and_reason_ne_empty wh attr
  · intro wh attr h1
    simp only [check_executable_or_condition] at *
    by_cases hc : (splitOr attr).any (fun e => wh (trimQuote e))
    · simp [hc] at h1
    · simp only [hc, if_false, Bool.false_eq_true] at *
      exact str_append_ne_empty _ _ (by decide)
  · intro wh attr b r h hb
    simp only [check_executable_condition] at h
    by_cases h1 : hasComma attr && hasOrTok attr
    · simp [h1] at h
    · simp only [h1, Bool.false_eq_true, if_false] at h
      by_cases h2 : hasOrTok attr
      · simp only [h2, if_true] at h
        have heq := Except.ok.inj h
        subst hb
        have hr : (check_executable_or_condition wh attr).2 = r :=
          congrArg Prod.snd heq
        have hb1 : (check_executable_or_condition wh attr).1 = false :=
          congrArg Prod.fst heq
        rw [← hr]
        simp only [check_executable_or_condition] at hb1 ⊢
        by_cases hc : (splitOr attr).any (fun e => wh (trimQuote e))
        · simp [hc] at hb1
        · simp only [hc, if_false, Bool.false_eq_true]
          exact str_append_ne_empty _ _ (by decide)
      · simp only [h2, if_false] at h
        have heq := Except.ok.inj h
        have hr : (check_executable_and_condition wh attr).2 = r :=
          congrArg Prod.snd heq
        rw [← hr]
        exact check_executable_and_reason_ne_empty wh attr
  · intro pb total s b r h _
    simp only [check_mem_condition] at h
    cases hp : pb s with
    | none => rw [hp] at h; exact absurd h (by simp)
    | some lim =>
      rw [hp] at h
      have heq := Except.ok.inj h
      have hr : ("because the memory less than " ++ s) = r :=
        congrArg Prod.snd heq
      rw [← hr]
      exact str_append_ne_empty _ _ (by decide)
  · intro n s b r h _
    simp only [check_cpu_core_condition] at h
    cases hp : rustParseNat s with
    | none => rw [hp] at h; exact absurd h (by simp)
    | some c =>
      rw [hp] at h
      have heq := Except.ok.inj h
      have hr : ("because the cpu core less than " ++ s) = r :=
        congrArg Prod.snd heq
      rw [← hr]
      exact str_append_ne_empty _ _ (by decide)
  · exact fun net attr _ => check_http_reason_ne_empty net attr
  · exact fun net attr _ => check_https_reason_ne_empty net attr
  · intro ct attr b r h hb
    simp only [check_tz_condition, Except.map] at h
    cases htz : check_timezone ct attr with
    | error e => rw [htz] at h; exact absurd h (by simp)
    | ok p =>
      rw [htz] at h
      simp only at h
      have heq := Except.ok.inj h
      match hp : p.2 with
      | [t] =>
        rw [hp] at heq
        have hr : ("because timezone " ++ t ++ " is incorrect") = r :=
          congrArg Prod.snd heq
        rw [← hr]; exact str_append3_ne_empty _ _ _ (by decide)
      | [] =>
        rw [hp] at heq
        by_cases hm : p.1
        · rw [if_pos hm] at heq
          have hb2 : true = b := congrArg Prod.fst heq
          rw [hb] at hb2; exact absurd hb2 (by decide)
        · rw [if_neg hm] at heq
          have hr :
              ("because the test case not run in following timezone:\n" ++ attr ++ "\n") = r :=
            congrArg Prod.snd heq
          rw [← hr]; exact str_append3_ne_empty _ _ _ (by decide)
      | t1 :: t2 :: rest =>
        rw [hp] at heq
        have hr : ("because following timezones are incorrect:\n" ++
            joinSep ", " (t1 :: t2 :: rest) ++ "\n") = r :=
          congrArg Prod.snd heq
        rw [← hr]; exact str_append3_ne_empty _ _ _ (by decide)

/-- C1 (witness). -/
theorem c1_witness :
    (check_path_condition (fun _ => FsEntry.absent) "a").1 = false ∧
      (check_path_condition (fun _ => FsEntry.absent) "a").2 ≠ "" :=
  ⟨by decide, c1_reason_nonempty_when_unsatisfied.1 (fun _ => FsEntry.absent) "a" (by decide)⟩

/-! ## Claim C2 -/

/-- C2 (counterexample).  The claim says the CPU-core predicate on "1"
with at least one logical core returns exactly (true, "").  On a host
with 4 logical cores it returns satisfied with the non-empty reason
template instead. -/
theorem c2_counterexample :
    check_cpu_core_condition 4 "1" ≠ Except.ok (true, "") := by
  intro h
  rw [show check_cpu_core_condition 4 "1" =
      Except.ok (true, "because the cpu core less than 1") from rfl] at h
  have := Except.ok.inj h
  exact absurd this (by decide)

/-- C2 (amended).  The memory part holds as stated: with "100GB" parsing
to a byte count above the host's total installed memory, the result is
exactly (false, "because the memory less than 100GB").  The CPU part is
amended: on a host with at least one logical core the predicate on "1" is
satisfied, but its reason is the (unused) template
"because the cpu core less than 1", not the empty string. -/
theorem c2_mem_and_cpu :
    (∀ parseBytes total lim, parseBytes "100GB" = some lim → total < lim →
        check_mem_condition parseBytes total "100GB" =
          Except.ok (false, "because the memory less than 100GB")) ∧
    (∀ n, 1 ≤ n →
        check_cpu_core_condition n "1" =
          Except.ok (true, "because the cpu core less than 1")) := by
  constructor
  · intro parseBytes total lim hp hlt
    simp only [check_mem_condition, hp]
    have hd : decide (total ≥ lim) = false := by
      simp only [decide_eq_false_iff_not]
      omega
    rw [hd]
    exact congrArg Except.ok (by decide)
  · intro n hn
    have hp : rustParseNat "1" = some 1 := by decide
    simp only [check_cpu_core_condition, hp]
    have hd : decide (n ≥ 1) = true := by
      simp only [decide_eq_true_eq]
      omega
    rw [hd]
    exact congrArg Except.ok (by decide)

/-- C2 (witness). -/
theorem c2_witness :
    check_mem_condition (fun s => if s = "100GB" then some 100000000000 else none)
        8000000000 "100GB" =
      Except.ok (false, "because the memory less than 100GB") ∧
    check_cpu_core_condition 4 "1" =
      Except.ok (true, "because the cpu core less than 1") :=
  ⟨c2_mem_and_cpu.1 _ 8000000000 100000000000 (by decide) (by decide),
   c2_mem_and_cpu.2 4 (by decide)⟩

/-! ## Claim C3 -/

/-- C3 (counterexample).  The claim says a target answering the HEAD
request with a non-success status counts as missing and makes the
predicate unsatisfied; with every request answered by a 404 response,
`send()` returns `Ok`, no target is collected as missing and the
predicate is satisfied. -/
theorem c3_counterexample :
    (check_https_condition (fun _ => HttpOutcome.response 404) "example.com").1 =
      true := by decide

/-- C3 (amended).  A target is missing exactly when the HEAD request
itself errs (connection failure, DNS failure); a received response, with
any status code, counts as a response, so the predicate is satisfied iff
no listed target's request errs. -/
theorem c3_missing_iff_send_err :
    (∀ net attr, (check_http_condition net attr).1 = true ↔
        ∀ l ∈ splitComma attr, net ("http://" ++ l) ≠ HttpOutcome.sendErr) ∧
    (∀ net attr, (check_https_condition net attr).1 = true ↔
        ∀ l ∈ splitComma attr, net ("https://" ++ l) ≠ HttpOutcome.sendErr) := by
  constructor
  · intro net attr
    simp only [check_http_condition, List.isEmpty_iff, List.map_eq_nil_iff,
      List.filter_eq_nil_iff]
    constructor
    · intro h l hl he
      have := h l hl
      rw [he] at this
      exact this rfl
    · intro h l hl hs
      cases hn : net ("http://" ++ l) with
      | sendErr => exact h l hl hn
      | response st => rw [hn] at hs; exact absurd hs (by simp [send_is_err])
  · intro net attr
    simp only [check_https_condition, List.isEmpty_iff, List.map_eq_nil_iff,
      List.filter_eq_nil_iff]
    constructor
    · intro h l hl he
      have := h l hl
      rw [he] at this
      exact this rfl
    · intro h l hl hs
      cases hn : net ("https://" ++ l) with
      | sendErr => exact h l hl hn
      | response st => rw [hn] at hs; exact absurd hs (by simp [send_is_err])

/-- C3 (witness). -/
theorem c3_witness :
    (check_http_condition (fun _ => HttpOutcome.sendErr) "a").1 ≠ true :=
  fun h =>
    absurd ((c3_missing_iff_send_err.1 (fun _ => HttpOutcome.sendErr) "a").mp h
      "a" (by decide)) (by simp)

/-! ## Claim C8 -/

/-- C8.  For a single-entry argument: a directory fails the file
predicate but satisfies the path predicate; a nonexistent path fails
both. -/
theorem c8_file_vs_path :
    ∀ fs attr, splitComma attr = [attr] →
      (fs (trimQuote attr) = FsEntry.dir →
        (check_file_condition fs attr).1 = false ∧
          (check_path_condition fs attr).1 = true) ∧
      (fs (trimQuote attr) = FsEntry.absent →
        (check_file_condition fs attr).1 = false ∧
          (check_path_condition fs attr).1 = false) := by
  intro fs attr hsplit
  constructor
  · intro hdir
    constructor
    · simp [check_file_condition, hsplit, hdir]
    · simp [check_path_condition, hsplit, hdir]
  · intro habs
    constructor
    · simp [check_file_condition, hsplit, habs]
    · simp [check_path_condition, hsplit, habs]

/-- C8 (witness). -/
theorem c8_witness :
    ((check_file_condition (fun p => if p = "d" then FsEntry.dir else FsEntry.absent)
        "d").1 = false ∧
      (check_path_condition (fun p => if p = "d" then FsEntry.dir else FsEntry.absent)
        "d").1 = true) ∧
    ((check_file_condition (fun _ => FsEntry.absent) "nope").1 = false ∧
      (check_path_condition (fun _ => FsEntry.absent) "nope").1 = false) :=
  ⟨(c8_file_vs_path (fun p => if p = "d" then FsEntry.dir else FsEntry.absent) "d"
      (by decide)).1 (by decide),
   (c8_file_vs_path (fun _ => FsEntry.absent) "nope" (by decide)).2 rfl⟩

/-! ## Claim C7 -/

/-- C7.  Mixing the comma and the `||` token aborts the build with a
result independent of the executable search oracle (nothing is probed);
in OR mode the predicate is satisfied iff some listed executable
resolves, and when none resolves the reason embeds the full original
specification text. -/
theorem c7_executable_combinators :
    (∀ wh₁ wh₂ attr, hasComma attr = true → hasOrTok attr = true →
        check_executable_condition wh₁ attr =
          Except.error "comma and the or token can not be used at the same time" ∧
        check_executable_condition wh₁ attr = check_executable_condition wh₂ attr) ∧
    (∀ wh attr, hasOrTok attr = true → hasComma attr = false →
        check_executable_condition wh attr =
          Except.ok (check_executable_or_condition wh attr) ∧
        ((check_executable_or_condition wh attr).1 = true ↔
          ∃ e ∈ splitOr attr, wh (trimQuote e) = true) ∧
        ((∀ e ∈ splitOr attr, wh (trimQuote e) = false) →
          check_executable_or_condition wh attr =
            (false, "because none of executables can be found: " ++ attr))) := by
  constructor
  · intro wh₁ wh₂ attr hand hor
    have h12 : (hasComma attr && hasOrTok attr) = true := by rw [hand, hor]; rfl
    constructor
    · simp [check_executable_condition, h12]
    · simp [check_executable_condition, h12]
  · intro wh attr hor hand
    have h12 : (hasComma attr && hasOrTok attr) = false := by rw [hand]; rfl
    refine ⟨?_, ?_, ?_⟩
    · simp [check_executable_condition, h12, hor, hand]
    · have hsat : (check_executable_or_condition wh attr).1 =
          (splitOr attr).any (fun e => wh (trimQuote e)) := by
        simp only [check_executable_or_condition]
        cases hc : (splitOr attr).any (fun e => wh (trimQuote e)) <;> simp [hc]
      rw [hsat]
      simp [List.any_eq_true]
    · intro hnone
      simp only [check_executable_or_condition]
      have hc : (splitOr attr).any (fun e => wh (trimQuote e)) = false := by
        simp only [List.any_eq_false]
        intro e he
        simp [hnone e he]
      rw [hc]
      rfl

/-- C7 (witness). -/
theorem c7_witness :
    check_executable_condition (fun _ => true) "a,b||c" =
      Except.error "comma and the or token can not be used at the same time" ∧
    check_executable_condition (fun _ => false) "a||b" =
      Except.ok (false, "because none of executables can be found: a||b") := by
  constructor
  · exact (c7_executable_combinators.1 (fun _ => true) (fun _ => true) "a,b||c"
      (by decide) (by decide)).1
  · have h := (c7_executable_combinators.2 (fun _ => false) "a||b"
      (by decide) (by decide))
    rw [h.1, h.2.2 (fun e _ => rfl)]
    exact congrArg Except.ok (by decide)

/-! ## Timezone lemmas -/

theorem tokMatches_iff (ct : Int) (t : String) :
    tokMatches ct t = true ↔ parse_tz_token t = TzTok.offset ct := by
  simp only [tokMatches]
  cases hp : parse_tz_token t with
  | abortTok msg => simp
  | failed => simp
  | offset off =>
    simp only [decide_eq_true_eq]
    constructor
    · intro h; rw [h]
    · intro h; exact (TzTok.offset.inj h).symm

theorem tokFailed_false_iff (t : String) :
    tokFailed t = false ↔ parse_tz_token t ≠ TzTok.failed := by
  simp [tokFailed]

/-- Closed form of the token loop when no token aborts. -/
theorem check_timezone_go_ok (ct : Int) :
    ∀ (toks : List String) (m : Bool) (inc : List String),
      (∀ t ∈ toks, tokAborts t = false) →
      check_timezone_go ct toks m inc =
        Except.ok (m || toks.any (tokMatches ct), inc ++ toks.filter tokFailed) := by
  intro toks
  induction toks with
  | nil => intro m inc _; simp [check_timezone_go]
  | cons t rest ih =>
    intro m inc h
    have ht : tokAborts t = false := h t (List.mem_cons_self t rest)
    have hrest : ∀ u ∈ rest, tokAborts u = false :=
      fun u hu => h u (List.mem_cons_of_mem t hu)
    cases hp : parse_tz_token t with
    | abortTok msg => rw [tokAborts, hp] at ht; exact absurd ht (by simp)
    | offset off =>
      simp only [check_timezone_go, hp]
      rw [ih (m || decide (ct = off)) inc hrest]
      have hm : tokMatches ct t = decide (ct = off) := by rw [tokMatches, hp]
      have hf : tokFailed t = false := by rw [tokFailed, hp]; rfl
      simp [hm, hf, Bool.or_assoc]
    | failed =>
      simp only [check_timezone_go, hp]
      rw [ih m (inc ++ [t]) hrest]
      have hm : tokMatches ct t = false := by rw [tokMatches, hp]
      have hf : tokFailed t = true := by rw [tokFailed, hp]; rfl
      simp [hm, hf]

/-- The token loop reaches an abort when some token is an ambiguous
abbreviation. -/
theorem check_timezone_go_err (ct : Int) :
    ∀ (toks : List String) (m : Bool) (inc : List String),
      (∃ t ∈ toks, tokAborts t = true) →
      ∃ msg, check_timezone_go ct toks m inc = Except.error msg := by
  intro toks
  induction toks with
  | nil => intro m inc h; exact absurd h (by simp)
  | cons t rest ih =>
    intro m inc h
    cases hp : parse_tz_token t with
    | abortTok msg => exact ⟨msg, by simp only [check_timezone_go, hp]⟩
    | offset off =>
      simp only [check_timezone_go, hp]
      apply ih
      obtain ⟨u, hu, hab⟩ := h
      rcases List.mem_cons.mp hu with rfl | hmem
      · rw [tokAborts, hp] at hab; exact absurd hab (by simp)
      · exact ⟨u, hmem, hab⟩
    | failed =>
      simp only [check_timezone_go, hp]
      apply ih
      obtain ⟨u, hu, hab⟩ := h
      rcases List.mem_cons.mp hu with rfl | hmem
      · rw [tokAborts, hp] at hab; exact absurd hab (by simp)
      · exact ⟨u, hmem, hab⟩

/-! ## Claim C4 -/

/-- C4.  The compile-time timezone predicate, when it does not abort, is
satisfied iff at least one token parses (through the abbreviation table
or as signed integer hours) to an offset equal to the host's current
local offset in minutes and no token failed to parse; the ambiguous
abbreviations PST, CST and IST abort the build for every current
offset. -/
theorem c4_timezone_compile :
    (∀ ct attr sat r, check_tz_condition ct attr = Except.ok (sat, r) →
        (sat = true ↔
          ((∀ t ∈ splitComma attr, parse_tz_token t ≠ TzTok.failed) ∧
            ∃ t ∈ splitComma attr, parse_tz_token t = TzTok.offset ct))) ∧
    (∀ ct : Int,
        check_tz_condition ct "PST" =
          Except.error "PST can be GMT+8 or GMT-8, please use +8 or -8 instead" ∧
        check_tz_condition ct "CST" =
          Except.error "PST can be GMT+8 or GMT-6, please use +8 or -6 instead" ∧
        check_tz_condition ct "IST" =
          Except.error
            "IST can be GMT+5.5, GMT+2 or GMT+1, please use +5.5, 2 or 1 instead") := by
  constructor
  · intro ct attr sat r h
    have hna : ∀ t ∈ splitComma attr, tokAborts t = false := by
      by_contra hc
      push_neg at hc
      obtain ⟨t, ht, hab⟩ := hc
      have hab2 : tokAborts t = true := by
        cases hq : tokAborts t with
        | false => exact absurd hq hab
        | true => rfl
      obtain ⟨msg, hmsg⟩ :=
        check_timezone_go_err ct (splitComma attr) false [] ⟨t, ht, hab2⟩
      rw [check_tz_condition, check_timezone, hmsg] at h
      exact absurd h (by simp [Except.map])
    have hgo := check_timezone_go_ok ct (splitComma attr) false [] hna
    rw [check_tz_condition, check_timezone, hgo] at h
    simp only [Except.map, Bool.false_or, List.nil_append] at h
    have heq := Except.ok.inj h
    cases hf : (splitComma attr).filter tokFailed with
    | cons t1 trest =>
      rw [hf] at heq
      have ht1 : t1 ∈ (splitComma attr).filter tokFailed := by
        rw [hf]; exact List.mem_cons_self t1 trest
      have hmem := List.mem_filter.mp ht1
      cases trest with
      | nil =>
        have hsat : sat = false := (congrArg Prod.fst heq).symm
        rw [hsat]
        simp only [Bool.false_eq_true, false_iff, not_and]
        intro hall _
        have hcontra : tokFailed t1 = false :=
          (tokFailed_false_iff t1).mpr (hall t1 hmem.1)
        rw [hmem.2] at hcontra
        exact absurd hcontra (by decide)
      | cons t2 trest2 =>
        have hsat : sat = false := (congrArg Prod.fst heq).symm
        rw [hsat]
        simp only [Bool.false_eq_true, false_iff, not_and]
        intro hall _
        have hcontra : tokFailed t1 = false :=
          (tokFailed_false_iff t1).mpr (hall t1 hmem.1)
        rw [hmem.2] at hcontra
        exact absurd hcontra (by decide)
    | nil =>
      rw [hf] at heq
      have hfil : ∀ t ∈ splitComma attr, parse_tz_token t ≠ TzTok.failed := by
        intro t ht
        rw [← tokFailed_false_iff]
        have := List.filter_eq_nil_iff.mp hf t ht
        cases hq : tokFailed t with
        | false => rfl
        | true => exact absurd hq this
      cases hany : (splitComma attr).any (tokMatches ct) with
      | true =>
        rw [hany] at heq
        have hsat : sat = true := by
          have := congrArg Prod.fst heq
          simpa using this.symm
        rw [hsat]
        simp only [true_iff]
        refine ⟨hfil, ?_⟩
        obtain ⟨t, ht, hm⟩ := List.any_eq_true.mp hany
        exact ⟨t, ht, (tokMatches_iff ct t).mp hm⟩
      | false =>
        rw [hany] at heq
        have hsat : sat = false := by
          have := congrArg Prod.fst heq
          simpa using this.symm
        rw [hsat]
        simp only [Bool.false_eq_true, false_iff, not_and]
        intro _ hex
        obtain ⟨t, ht, hm⟩ := hex
        have : tokMatches ct t = true := (tokMatches_iff ct t).mpr hm
        have hfalse := List.any_eq_false.mp hany t ht
        rw [this] at hfalse
        exact absurd hfalse (by simp)
  · intro ct
    exact ⟨rfl, rfl, rfl⟩

/-- C4 (witness). -/
theorem c4_witness :
    check_tz_condition 0 "UTC" = Except.ok (true, "") ∧
      (true = true ↔
        ((∀ t ∈ splitComma "UTC", parse_tz_token t ≠ TzTok.failed) ∧
          ∃ t ∈ splitComma "UTC", parse_tz_token t = TzTok.offset 0)) :=
  ⟨rfl, c4_timezone_compile.1 0 "UTC" true "" rfl⟩

/-! ## Claim C10 -/

/-- C10.  The runtime-mode timezone check parses tokens only as signed
integers, so an abbreviation token that the compile-time table maps to an
offset is treated at execution time as failed to parse, producing a skip
("incorrect" reason carrying the ignore-mark) for every current offset —
including the offset the table would have matched; and the ambiguous
abbreviations PST, CST and IST, which abort the compile-time build, give
the same runtime skip outcome (the runtime macro inspects no token, so
nothing aborts). -/
theorem c10_runtime_timezone :
    (∀ pfx ct tok off, parse_tz_token tok = TzTok.offset off →
        rustParseI32 tok = none → splitComma tok = [tok] →
        runtime_tz_check pfx ct tok =
          RtOutcome.err (pfx ++ "because timezone " ++ tok ++ " is incorrect")) ∧
    (∀ pfx ct,
        runtime_tz_check pfx ct "PST" =
          RtOutcome.err (pfx ++ "because timezone " ++ "PST" ++ " is incorrect") ∧
        runtime_tz_check pfx ct "CST" =
          RtOutcome.err (pfx ++ "because timezone " ++ "CST" ++ " is incorrect") ∧
        runtime_tz_check pfx ct "IST" =
          RtOutcome.err (pfx ++ "because timezone " ++ "IST" ++ " is incorrect")) := by
  constructor
  · intro pfx ct tok off _ hnone hsplit
    simp [runtime_tz_check, hsplit, hnone]
  · intro pfx ct
    refine ⟨?_, ?_, ?_⟩
    · simp [runtime_tz_check, show splitComma "PST" = ["PST"] from rfl,
        show rustParseI32 "PST" = none from rfl]
    · simp [runtime_tz_check, show splitComma "CST" = ["CST"] from rfl,
        show rustParseI32 "CST" = none from rfl]
    · simp [runtime_tz_check, show splitComma "IST" = ["IST"] from rfl,
        show rustParseI32 "IST" = none from rfl]

/-- C10 (witness): the abbreviation "UTC" maps to offset 0 in the table,
yet on a host at offset 0 the runtime check still skips it as
incorrect. -/
theorem c10_witness :
    runtime_tz_check "" 0 "UTC" =
      RtOutcome.err ("" ++ "because timezone " ++ "UTC" ++ " is incorrect") :=
  c10_runtime_timezone.1 "" 0 "UTC" 0 rfl rfl rfl

/-! ## Lock lemmas -/

/-- When every attempt fails, the loop trace is one attempt and one
one-second sleep per iteration, and the marker is never created. -/
theorem lock_loop_all_fail (c : Nat → Bool) :
    ∀ (n i : Nat), (∀ j, i ≤ j → j < i + n → c j = false) →
      lock_loop c n i =
        ((List.range' i n).bind (fun j => [LockEvent.attempt j, LockEvent.sleep]),
          false) := by
  intro n
  induction n with
  | zero => intro i _; simp [lock_loop]
  | succ k ih =>
    intro i h
    have hi : c i = false := h i (Nat.le_refl i) (by omega)
    simp only [lock_loop, hi, Bool.false_eq_true, if_false]
    rw [ih (i + 1) (fun j h1 h2 => h j (by omega) (by omega))]
    simp [List.range'_succ]

/-- When some attempt within the window succeeds, the loop creates the
marker. -/
theorem lock_loop_succeeds (c : Nat → Bool) :
    ∀ (n i : Nat), (∃ j, i ≤ j ∧ j < i + n ∧ c j = true) →
      (lock_loop c n i).2 = true := by
  intro n
  induction n with
  | zero => intro i h; obtain ⟨j, h1, h2, _⟩ := h; omega
  | succ k ih =>
    intro i h
    cases hi : c i with
    | true => simp [lock_loop, hi]
    | false =>
      simp only [lock_loop, hi, Bool.false_eq_true, if_false]
      apply ih
      obtain ⟨j, h1, h2, h3⟩ := h
      rcases Nat.eq_or_lt_of_le h1 with rfl | hlt
      · rw [hi] at h3; exact absurd h3 (by decide)
      · exact ⟨j, by omega, by omega, h3⟩

/-- The loop makes at most `n` create attempts. -/
theorem lock_loop_attempts_le (c : Nat → Bool) :
    ∀ (n i : Nat), ((lock_loop c n i).1.filter isAttempt).length ≤ n := by
  intro n
  induction n with
  | zero => intro i; simp [lock_loop]
  | succ k ih =>
    intro i
    cases hi : c i with
    | true => simp [lock_loop, hi, isAttempt]
    | false =>
      simp only [lock_loop, hi, Bool.false_eq_true, if_false, List.filter_cons]
      have hs : isAttempt LockEvent.sleep = false := rfl
      have ha : isAttempt (LockEvent.attempt i) = true := rfl
      simp only [hs, ha, Bool.false_eq_true, if_true, if_false, List.length_cons]
      have := ih (i + 1)
      omega

/-! ## Claim C5 -/

/-- C5.  The lock rewrite: with no second argument the wait ceiling
defaults to 60; the generated body makes at most `wait` create-if-absent
attempts with a one-second sleep after each failure, panics (a hard test
failure, not a skip) when all attempts fail, otherwise runs the original
body and then removes the marker, panicking if the removal fails; and
applying the lock annotation to a module aborts the build. -/
theorem c5_lock :
    (∀ attr, splitComma attr = [attr] →
        lock_parse attr = Except.ok ⟨attr, 60⟩) ∧
    (∀ wait c removeOk, ((lock_run wait c removeOk).filter isAttempt).length ≤ wait) ∧
    (∀ wait c removeOk, (∀ i, i < wait → c i = false) →
        lock_result wait c removeOk = LockResult.panicAcquire ∧
        lock_run wait c removeOk =
          (List.range' 0 wait).bind (fun j => [LockEvent.attempt j, LockEvent.sleep]) ++
            [LockEvent.panicMsg "Fail to acquire the lock for the testcase"]) ∧
    (∀ wait c, (∃ i, i < wait ∧ c i = true) →
        (∃ pre, lock_run wait c true =
            pre ++ [LockEvent.runBody, LockEvent.removeMarker]) ∧
        lock_result wait c true = LockResult.done ∧
        lock_result wait c false = LockResult.panicUnlock) ∧
    (∀ attr, lock_dispatch true attr =
        Except.error "test_with lock only works with fn") := by
  refine ⟨?_, ?_, ?_, ?_, ?_⟩
  · intro attr hsplit
    simp [lock_parse, hsplit]
  · intro wait c removeOk
    simp only [lock_run]
    cases hacq : (lock_loop c wait 0).2 with
    | true =>
      cases removeOk with
      | true =>
        simp only [hacq, if_true, List.filter_append]
        have h1 := lock_loop_attempts_le c wait 0
        simp [isAttempt]
        omega
      | false =>
        simp only [hacq, if_true, List.filter_append]
        have h1 := lock_loop_attempts_le c wait 0
        simp [isAttempt]
        omega
    | false =>
      simp only [hacq, Bool.false_eq_true, if_false, List.filter_append]
      have h1 := lock_loop_attempts_le c wait 0
      simp [isAttempt]
      omega
  · intro wait c removeOk h
    have hl := lock_loop_all_fail c wait 0 (fun j _ h2 => h j (by omega))
    constructor
    · simp [lock_result, hl]
    · simp [lock_run, hl]
  · intro wait c h
    obtain ⟨i, hi, hci⟩ := h
    have hs : (lock_loop c wait 0).2 = true :=
      lock_loop_succeeds c wait 0 ⟨i, by omega, by omega, hci⟩
    refine ⟨⟨(lock_loop c wait 0).1, ?_⟩, ?_, ?_⟩
    · simp [lock_run, hs]
    · simp [lock_result, hs]
    · simp [lock_result, hs]
  · intro attr
    simp [lock_dispatch]

/-- C5 (witness). -/
theorem c5_witness :
    lock_parse "LOCK" = Except.ok ⟨"LOCK", 60⟩ ∧
    (lock_result 2 (fun _ => false) true = LockResult.panicAcquire ∧
      lock_run 2 (fun _ => false) true =
        (List.range' 0 2).bind (fun j => [LockEvent.attempt j, LockEvent.sleep]) ++
          [LockEvent.panicMsg "Fail to acquire the lock for the testcase"]) ∧
    (∃ pre, lock_run 3 (fun i => i == 1) true =
        pre ++ [LockEvent.runBody, LockEvent.removeMarker]) ∧
    lock_result 3 (fun i => i == 1) false = LockResult.panicUnlock ∧
    lock_dispatch true "LOCK" =
      Except.error "test_with lock only works with fn" :=
  ⟨c5_lock.1 "LOCK" (by decide),
   c5_lock.2.2.1 2 (fun _ => false) true (fun i _ => rfl),
   (c5_lock.2.2.2.1 3 (fun i => i == 1) ⟨1, by decide, rfl⟩).1,
   (c5_lock.2.2.2.1 3 (fun i => i == 1) ⟨1, by decide, rfl⟩).2.2,
   c5_lock.2.2.2.2 "LOCK"⟩

/-! ## Async harness lemmas -/

/-- The counting fold equals the three filter lengths. -/
theorem count_tests_go (pfx : String) :
    ∀ (tests : List AsyncTest) (a b c : Nat),
      tests.foldl
          (fun acc t =>
            match t.result with
            | CheckOutcome.ok => (acc.1 + 1, acc.2.1, acc.2.2)
            | CheckOutcome.err none => (acc.1, acc.2.1 + 1, acc.2.2)
            | CheckOutcome.err (some m) =>
              if startsWithMark pfx m then (acc.1, acc.2.1, acc.2.2 + 1)
              else (acc.1, acc.2.1 + 1, acc.2.2))
          (a, b, c) =
        (a + (tests.filter (fun t => t.result == CheckOutcome.ok)).length,
          b + (tests.filter (fun t => outcomeFailed pfx t.result)).length,
          c + (tests.filter (fun t => outcomeIgnored pfx t.result)).length) := by
  intro tests
  induction tests with
  | nil => intro a b c; simp
  | cons t rest ih =>
    intro a b c
    rw [List.foldl_cons]
    cases hr : t.result with
    | ok =>
      simp only [hr]
      rw [ih (a + 1) b c]
      simp [List.filter_cons, hr, outcomeFailed, outcomeIgnored]
      omega
    | err msg =>
      cases msg with
      | none =>
        simp only [hr]
        rw [ih a (b + 1) c]
        simp [List.filter_cons, hr, outcomeFailed, outcomeIgnored]
        omega
      | some m =>
        cases hm : startsWithMark pfx m with
        | true =>
          simp only [hr, hm, if_true]
          rw [ih a b (c + 1)]
          simp [List.filter_cons, hr, outcomeFailed, outcomeIgnored, hm]
          omega
        | false =>
          simp only [hr, hm, Bool.false_eq_true, if_false]
          rw [ih a (b + 1) c]
          simp [List.filter_cons, hr, outcomeFailed, outcomeIgnored, hm]
          omega

/-- The counters of `count_tests` are the numbers of passed, failed and
ignored tests. -/
theorem count_tests_eq (pfx : String) (tests : List AsyncTest) :
    count_tests pfx tests =
      ((tests.filter (fun t => t.result == CheckOutcome.ok)).length,
        (tests.filter (fun t => outcomeFailed pfx t.result)).length,
        (tests.filter (fun t => outcomeIgnored pfx t.result)).length) := by
  have := count_tests_go pfx tests 0 0 0
  simpa [count_tests] using this

/-! ## Claim C9 -/

/-- C9.  The asynchronous custom harness prints one report line per test
(in order, of the documented form) and the summary line
"test result: ok|failed. p passed; f failed; i ignored;", and the process
exit status is 1 exactly when at least one test failed and 0 exactly when
every test passed or was ignored. -/
theorem c9_async_harness :
    ∀ modName pfx tests,
      (module_report modName pfx tests).1 = tests.map (test_line modName pfx) ∧
      (module_report modName pfx tests).2.1 =
        summary_line (tests.filter (fun t => t.result == CheckOutcome.ok)).length
          (tests.filter (fun t => outcomeFailed pfx t.result)).length
          (tests.filter (fun t => outcomeIgnored pfx t.result)).length ∧
      ((module_report modName pfx tests).2.2 = 1 ↔
        ∃ t ∈ tests, outcomeFailed pfx t.result = true) ∧
      ((module_report modName pfx tests).2.2 = 0 ↔
        ∀ t ∈ tests, outcomeFailed pfx t.result = false) := by
  intro modName pfx tests
  refine ⟨rfl, ?_, ?_, ?_⟩
  · simp [module_report, count_tests_eq]
  · simp only [module_report, count_tests_eq]
    constructor
    · intro h1
      by_contra hex
      push_neg at hex
      have hnil : tests.filter (fun t => outcomeFailed pfx t.result) = [] := by
        rw [List.filter_eq_nil_iff]
        intro t ht hp
        exact hex t ht hp
      rw [hnil] at h1
      simp at h1
    · intro hex
      obtain ⟨t, ht, hp⟩ := hex
      have hmem : t ∈ tests.filter (fun t => outcomeFailed pfx t.result) :=
        List.mem_filter.mpr ⟨ht, hp⟩
      have hpos : 0 < (tests.filter (fun t => outcomeFailed pfx t.result)).length :=
        List.length_pos.mpr (List.ne_nil_of_mem hmem)
      exact if_pos hpos
  · simp only [module_report, count_tests_eq]
    constructor
    · intro h0 t ht
      cases hq : outcomeFailed pfx t.result with
      | false => rfl
      | true =>
        have hmem : t ∈ tests.filter (fun t => outcomeFailed pfx t.result) :=
          List.mem_filter.mpr ⟨ht, hq⟩
        have hpos : 0 < (tests.filter (fun t => outcomeFailed pfx t.result)).length :=
          List.length_pos.mpr (List.ne_nil_of_mem hmem)
        rw [if_pos hpos] at h0
        exact absurd h0 (by omega)
    · intro hall
      have hnil : tests.filter (fun t => outcomeFailed pfx t.result) = [] := by
        rw [List.filter_eq_nil_iff]
        intro t ht hp
        rw [hall t ht] at hp
        exact absurd hp (by decide)
      rw [hnil]
      simp

/-- C9 (witness): a module with one passing test and one ignored test
exits with status 0; adding a failing test switches the status to 1. -/
theorem c9_witness :
    (module_report "m" "AAAAAAAAAAAA"
        [⟨"t1", CheckOutcome.ok⟩,
         ⟨"t2", CheckOutcome.err (some "AAAAAAAAAAAAreason")⟩]).2.2 = 0 ∧
    (module_report "m" "AAAAAAAAAAAA"
        [⟨"t1", CheckOutcome.ok⟩,
         ⟨"t2", CheckOutcome.err (some "boom")⟩]).2.2 = 1 :=
  ⟨(c9_async_harness "m" "AAAAAAAAAAAA"
      [⟨"t1", CheckOutcome.ok⟩,
       ⟨"t2", CheckOutcome.err (some "AAAAAAAAAAAAreason")⟩]).2.2.2.mpr
    (by decide),
   (c9_async_harness "m" "AAAAAAAAAAAA"
      [⟨"t1", CheckOutcome.ok⟩,
       ⟨"t2", CheckOutcome.err (some "boom")⟩]).2.2.1.mpr
    ⟨⟨"t2", CheckOutcome.err (some "boom")⟩, by decide, by decide⟩⟩

/-! ## Synchronous runner: structural views and lemmas -/

/-- Success decomposition: when no fixture batch fails, the generated
main runs the fixture batches in order, then the one pooled final batch,
then exits with the pooled conclusion. -/
theorem runner_go_ok :
    ∀ (mods : List RtModule) (i : Nat) (pool : List (Nat × Nat × Bool)),
      (∀ m ∈ mods, m.hasEnv = true → modFails m = false) →
      runner_go mods i pool =
        okTrace mods i ++ poolEvents (pool ++ collectPool mods i) ++
          [if poolFails (pool ++ collectPool mods i) then RunEvent.exitFailure
           else RunEvent.exitSuccess] := by
  intro mods
  induction mods with
  | nil => intro i pool _; simp [runner_go, okTrace, collectPool]
  | cons m rest ih =>
    intro i pool h
    have hrest : ∀ u ∈ rest, u.hasEnv = true → modFails u = false :=
      fun u hu => h u (List.mem_cons_of_mem m hu)
    cases hEnv : m.hasEnv with
    | true =>
      have hFail : modFails m = false := h m (List.mem_cons_self m rest) hEnv
      simp only [runner_go, okTrace, collectPool, hEnv, hFail, if_true, if_false,
        Bool.false_eq_true, ih (i + 1) pool hrest]
      simp [List.append_assoc]
    | false =>
      simp only [runner_go, okTrace, collectPool, hEnv, Bool.false_eq_true,
        if_false, ih (i + 1) (pool ++ modPool i m) hrest]
      simp [List.append_assoc]

/-- Failure decomposition: when some fixture batch fails, the generated
main stops at the first failing fixture batch and exits with a failing
status; the pooled batch never runs. -/
theorem runner_go_fail :
    ∀ (mods : List RtModule) (i : Nat) (pool : List (Nat × Nat × Bool)),
      (∃ m ∈ mods, m.hasEnv = true ∧ modFails m = true) →
      runner_go mods i pool = failTrace mods i ++ [RunEvent.exitFailure] := by
  intro mods
  induction mods with
  | nil => intro i pool h; exact absurd h (by simp)
  | cons m rest ih =>
    intro i pool h
    cases hEnv : m.hasEnv with
    | true =>
      cases hFail : modFails m with
      | true =>
        simp only [runner_go, failTrace, hEnv, hFail, if_true]
      | false =>
        have hrest : ∃ u ∈ rest, u.hasEnv = true ∧ modFails u = true := by
          obtain ⟨u, hu, h1, h2⟩ := h
          rcases List.mem_cons.mp hu with rfl | hmem
          · rw [hFail] at h2; exact absurd h2 (by decide)
          · exact ⟨u, hmem, h1, h2⟩
        simp only [runner_go, failTrace, hEnv, hFail, if_true, if_false,
          Bool.false_eq_true, ih (i + 1) pool hrest]
        simp [List.append_assoc]
    | false =>
      have hrest : ∃ u ∈ rest, u.hasEnv = true ∧ modFails u = true := by
        obtain ⟨u, hu, h1, h2⟩ := h
        rcases List.mem_cons.mp hu with rfl | hmem
        · rw [hEnv] at h1; exact absurd h1 (by decide)
        · exact ⟨u, hmem, h1, h2⟩
      simp only [runner_go, failTrace, hEnv, Bool.false_eq_true, if_false,
        ih (i + 1) (pool ++ modPool i m) hrest]

/-- Every event of the success-path fixture prefix belongs to a fixture
module. -/
theorem mem_okTrace :
    ∀ (mods : List RtModule) (i : Nat) (e : RunEvent), e ∈ okTrace mods i →
      ∃ j m, mods.get? j = some m ∧ m.hasEnv = true ∧
        (e = RunEvent.envCreate (i + j) ∨ e = RunEvent.envDrop (i + j) ∨
          ∃ t, e = RunEvent.runTest (i + j) t) := by
  intro mods
  induction mods with
  | nil => intro i e he; exact absurd he (by simp [okTrace])
  | cons m rest ih =>
    intro i e he
    cases hEnv : m.hasEnv with
    | false =>
      rw [okTrace, if_neg (by simp [hEnv])] at he
      obtain ⟨j, mm, h1, h2, h3⟩ := ih (i + 1) e he
      refine ⟨j + 1, mm, by simpa using h1, h2, ?_⟩
      have : i + 1 + j = i + (j + 1) := by omega
      rw [this] at h3
      exact h3
    | true =>
      rw [okTrace, if_pos (by simp [hEnv])] at he
      rcases List.mem_cons.mp he with rfl | he2
      · exact ⟨0, m, rfl, hEnv, Or.inl (by simp)⟩
      · rcases List.mem_append.mp he2 with he3 | he4
        · simp only [testEvents, List.mem_map, List.mem_range] at he3
          obtain ⟨t, _, rfl⟩ := he3
          exact ⟨0, m, rfl, hEnv, Or.inr (Or.inr ⟨t, by simp⟩)⟩
        · rcases List.mem_cons.mp he4 with rfl | he5
          · exact ⟨0, m, rfl, hEnv, Or.inr (Or.inl (by simp))⟩
          · obtain ⟨j, mm, h1, h2, h3⟩ := ih (i + 1) e he5
            refine ⟨j + 1, mm, by simpa using h1, h2, ?_⟩
            have : i + 1 + j = i + (j + 1) := by omega
            rw [this] at h3
            exact h3

/-- Every pooled entry comes from a non-fixture module and carries that
module's index. -/
theorem mem_collectPool :
    ∀ (mods : List RtModule) (i : Nat) (p : Nat × Nat × Bool),
      p ∈ collectPool mods i →
      ∃ j m, mods.get? j = some m ∧ m.hasEnv = false ∧ p.1 = i + j := by
  intro mods
  induction mods with
  | nil => intro i p hp; exact absurd hp (by simp [collectPool])
  | cons m rest ih =>
    intro i p hp
    cases hEnv : m.hasEnv with
    | true =>
      rw [collectPool, if_pos (by simp [hEnv])] at hp
      obtain ⟨j, mm, h1, h2, h3⟩ := ih (i + 1) p hp
      exact ⟨j + 1, mm, by simpa using h1, h2, by omega⟩
    | false =>
      rw [collectPool, if_neg (by simp [hEnv])] at hp
      rcases List.mem_append.mp hp with hp1 | hp2
      · simp only [modPool, List.mem_map] at hp1
        obtain ⟨tb, _, rfl⟩ := hp1
        exact ⟨0, m, rfl, hEnv, by simp⟩
      · obtain ⟨j, mm, h1, h2, h3⟩ := ih (i + 1) p hp2
        exact ⟨j + 1, mm, by simpa using h1, h2, by omega⟩

/-- Every event of the failure-truncated walk belongs to a fixture module
that is not preceded by another failing fixture module. -/
theorem mem_failTrace :
    ∀ (mods : List RtModule) (i : Nat) (e : RunEvent), e ∈ failTrace mods i →
      ∃ j m, mods.get? j = some m ∧ m.hasEnv = true ∧
        (∀ l ml, l < j → mods.get? l = some ml → ml.hasEnv = true →
          modFails ml = false) ∧
        (e = RunEvent.envCreate (i + j) ∨ e = RunEvent.envDrop (i + j) ∨
          ∃ t, e = RunEvent.runTest (i + j) t) := by
  intro mods
  induction mods with
  | nil => intro i e he; exact absurd he (by simp [failTrace])
  | cons m rest ih =>
    intro i e he
    cases hEnv : m.hasEnv with
    | false =>
      rw [failTrace, if_neg (by simp [hEnv])] at he
      obtain ⟨j, mm, h1, h2, h3, h4⟩ := ih (i + 1) e he
      refine ⟨j + 1, mm, by simpa using h1, h2, ?_, ?_⟩
      · intro l ml hl hml hmlenv
        cases l with
        | zero =>
          have : ml = m := by
            have := hml
            simp at this
            exact this.symm
          rw [this] at hmlenv
          rw [hEnv] at hmlenv
          exact absurd hmlenv (by decide)
        | succ l2 =>
          exact h3 l2 ml (by omega) (by simpa using hml) hmlenv
      · have : i + 1 + j = i + (j + 1) := by omega
        rw [this] at h4
        exact h4
    | true =>
      cases hFail : modFails m with
      | true =>
        rw [failTrace, if_pos (by simp [hEnv]), if_pos (by simp [hFail])] at he
        rcases List.mem_cons.mp he with rfl | he2
        · exact ⟨0, m, rfl, hEnv, by omega, Or.inl (by simp)⟩
        · simp only [testEvents, List.mem_map, List.mem_range] at he2
          obtain ⟨t, _, rfl⟩ := he2
          exact ⟨0, m, rfl, hEnv, by omega, Or.inr (Or.inr ⟨t, by simp⟩)⟩
      | false =>
        rw [failTrace, if_pos (by simp [hEnv]), if_neg (by simp [hFail])] at he
        rcases List.mem_cons.mp he with rfl | he2
        · exact ⟨0, m, rfl, hEnv, by omega, Or.inl (by simp)⟩
        · rcases List.mem_append.mp he2 with he3 | he4
          · simp only [testEvents, List.mem_map, List.mem_range] at he3
            obtain ⟨t, _, rfl⟩ := he3
            exact ⟨0, m, rfl, hEnv, by omega, Or.inr (Or.inr ⟨t, by simp⟩)⟩
          · rcases List.mem_cons.mp he4 with rfl | he5
            · exact ⟨0, m, rfl, hEnv, by omega, Or.inr (Or.inl (by simp))⟩
            · obtain ⟨j, mm, h1, h2, h3, h4⟩ := ih (i + 1) e he5
              refine ⟨j + 1, mm, by simpa using h1, h2, ?_, ?_⟩
              · intro l ml hl hml hmlenv
                cases l with
                | zero =>
                  have hml0 : ml = m := by
                    have := hml
                    simp at this
                    exact this.symm
                  rw [hml0]
                  exact hFail
                | succ l2 =>
                  exact h3 l2 ml (by omega) (by simpa using hml) hmlenv
              · have : i + 1 + j = i + (j + 1) := by omega
                rw [this] at h4
                exact h4

/-- Every fixture module's release event occurs in the success-path
prefix. -/
theorem envDrop_mem_okTrace :
    ∀ (mods : List RtModule) (i j : Nat) (m : RtModule),
      mods.get? j = some m → m.hasEnv = true →
      RunEvent.envDrop (i + j) ∈ okTrace mods i := by
  intro mods
  induction mods with
  | nil => intro i j m h _; simp at h
  | cons m0 rest ih =>
    intro i j m hj hEnv
    cases j with
    | zero =>
      have hm : m0 = m := by simpa using hj
      rw [okTrace, if_pos (by simp [hm, hEnv])]
      simp
    | succ j2 =>
      have hj2 : rest.get? j2 = some m := by simpa using hj
      have hmem := ih (i + 1) j2 m hj2 hEnv
      have hidx : i + 1 + j2 = i + (j2 + 1) := by omega
      rw [hidx] at hmem
      cases hEnv0 : m0.hasEnv with
      | true =>
        rw [okTrace, if_pos (by simp [hEnv0])]
        simp [hmem]
      | false =>
        rw [okTrace, if_neg (by simp [hEnv0])]
        exact hmem

/-- A position holding a value absent from the right part of an append
lies in the left part. -/
theorem pos_lt_of_not_mem_right {α : Type} (l₁ l₂ : List α) (p : Nat) (e : α)
    (h : (l₁ ++ l₂).get? p = some e) (he : e ∉ l₂) : p < l₁.length := by
  by_contra hge
  push_neg at hge
  rw [List.get?_append_right hge] at h
  exact he (List.get?_mem h)

/-- A position holding a value absent from the left part of an append
lies in the right part. -/
theorem pos_ge_of_not_mem_left {α : Type} (l₁ l₂ : List α) (p : Nat) (e : α)
    (h : (l₁ ++ l₂).get? p = some e) (he : e ∉ l₁) : l₁.length ≤ p := by
  by_contra hlt
  push_neg at hlt
  rw [List.get?_append hlt] at h
  exact he (List.get?_mem h)

/-! ## Claim C6 -/

/-- C6.  In the program generated by the synchronous runner, for every
module list (hence every ordering): (1) every event of a fixture module
(creation, test, release) occurs strictly before every test event of a
module without a fixture; (2) if any non-fixture test runs, every fixture
module's release is in the trace (by (1), before it); (3) when no fixture
batch fails, the trace is exactly the fixture batches in list order
followed by the one pooled final batch of all non-fixture tests and the
final exit; (4) a failing fixture batch makes the program exit with a
failing status: no exit-success event, no non-fixture test ever runs, and
no test of any module after the first failing fixture module runs. -/
theorem c6_runner_isolation :
    ∀ mods : List RtModule,
      (∀ p q ef en, (runner_exec mods).get? p = some ef →
        fixEvent mods ef = true →
        (runner_exec mods).get? q = some en → nonFixTest mods en = true →
        p < q) ∧
      (∀ q en, (runner_exec mods).get? q = some en → nonFixTest mods en = true →
        ∀ j m, mods.get? j = some m → m.hasEnv = true →
          RunEvent.envDrop j ∈ runner_exec mods) ∧
      ((∀ m ∈ mods, m.hasEnv = true → modFails m = false) →
        runner_exec mods =
          okTrace mods 0 ++ poolEvents (collectPool mods 0) ++
            [if poolFails (collectPool mods 0) then RunEvent.exitFailure
             else RunEvent.exitSuccess]) ∧
      ((∃ m ∈ mods, m.hasEnv = true ∧ modFails m = true) →
        runner_exec mods = failTrace mods 0 ++ [RunEvent.exitFailure] ∧
        RunEvent.exitSuccess ∉ runner_exec mods ∧
        (∀ j t m, mods.get? j = some m → m.hasEnv = false →
          RunEvent.runTest j t ∉ runner_exec mods) ∧
        (∀ i mi, mods.get? i = some mi → mi.hasEnv = true → modFails mi = true →
          (∀ l ml, l < i → mods.get? l = some ml → ml.hasEnv = true →
            modFails ml = false) →
          ∀ j t, i < j → RunEvent.runTest j t ∉ runner_exec mods)) := by
  intro mods
  by_cases hfail : ∃ m ∈ mods, m.hasEnv = true ∧ modFails m = true
  · -- some fixture batch fails
    have heq : runner_exec mods = failTrace mods 0 ++ [RunEvent.exitFailure] :=
      runner_go_fail mods 0 [] hfail
    have hnoNF : ∀ en, en ∈ runner_exec mods → nonFixTest mods en = true → False := by
      intro en hen hnf
      rw [heq] at hen
      rcases List.mem_append.mp hen with h1 | h2
      · obtain ⟨j, m, hj, hEnvT, _, hshape⟩ := mem_failTrace mods 0 en h1
        rcases hshape with h | h | ⟨t, h⟩
        · rw [h] at hnf; simp [nonFixTest] at hnf
        · rw [h] at hnf; simp [nonFixTest] at hnf
        · rw [h] at hnf
          simp only [nonFixTest, Nat.zero_add, hj] at hnf
          rw [hEnvT] at hnf
          exact absurd hnf (by decide)
      · have h2e : en = RunEvent.exitFailure := by simpa using h2
        rw [h2e] at hnf
        simp [nonFixTest] at hnf
    refine ⟨?_, ?_, ?_, ?_⟩
    · intro p q ef en _ _ hq hen
      exact (hnoNF en (List.get?_mem hq) hen).elim
    · intro q en hq hen
      exact (hnoNF en (List.get?_mem hq) hen).elim
    · intro hok
      obtain ⟨m, hm, hEnvT, hFl⟩ := hfail
      rw [hok m hm hEnvT] at hFl
      exact absurd hFl (by decide)
    · intro _
      refine ⟨heq, ?_, ?_, ?_⟩
      · intro hmem
        rw [heq] at hmem
        rcases List.mem_append.mp hmem with h1 | h2
        · obtain ⟨j, m, _, _, _, hshape⟩ := mem_failTrace mods 0 _ h1
          rcases hshape with h | h | ⟨t, h⟩ <;> simp at h
        · simp at h2
      · intro j t m hj henv hmem
        rw [heq] at hmem
        rcases List.mem_append.mp hmem with h1 | h2
        · obtain ⟨k, mk, hk, hkenv, _, hshape⟩ := mem_failTrace mods 0 _ h1
          rcases hshape with h | h | ⟨t2, h⟩
          · simp at h
          · simp at h
          · have hjk : j = k := by
              have := RunEvent.runTest.inj h
              omega
            rw [hjk, hk] at hj
            have hmmk : mk = m := by simpa using hj
            rw [← hmmk, hkenv] at henv
            exact absurd henv (by decide)
        · simp at h2
      · intro i mi hi hienv hifail hprev j t hij hmem
        rw [heq] at hmem
        rcases List.mem_append.mp hmem with h1 | h2
        · obtain ⟨k, mk, hk, hkenv, hnopre, hshape⟩ := mem_failTrace mods 0 _ h1
          rcases hshape with h | h | ⟨t2, h⟩
          · simp at h
          · simp at h
          · have hjk : j = k := by
              have := RunEvent.runTest.inj h
              omega
            have : modFails mi = false :=
              hnopre i mi (by omega) hi hienv
            rw [hifail] at this
            exact absurd this (by decide)
        · simp at h2
  · -- no fixture batch fails
    have hok : ∀ m ∈ mods, m.hasEnv = true → modFails m = false := by
      intro m hm henv
      cases hq : modFails m with
      | false => rfl
      | true => exact absurd ⟨m, hm, henv, hq⟩ hfail
    have heq : runner_exec mods =
        okTrace mods 0 ++ (poolEvents (collectPool mods 0) ++
          [if poolFails (collectPool mods 0) then RunEvent.exitFailure
           else RunEvent.exitSuccess]) := by
      have := runner_go_ok mods 0 [] hok
      simpa [List.append_assoc] using this
    have ffix : ∀ ef, fixEvent mods ef = true →
        ef ∉ poolEvents (collectPool mods 0) ++
          [if poolFails (collectPool mods 0) then RunEvent.exitFailure
           else RunEvent.exitSuccess] := by
      intro ef hef hmem
      rcases List.mem_append.mp hmem with h1 | h2
      · simp only [poolEvents, List.mem_map] at h1
        obtain ⟨p, hp, rfl⟩ := h1
        obtain ⟨j, m, hj, hF, hp1⟩ := mem_collectPool mods 0 p hp
        simp only [fixEvent, isFixtureOf, hp1, Nat.zero_add, hj] at hef
        rw [hF] at hef
        exact absurd hef (by decide)
      · by_cases hc : poolFails (collectPool mods 0)
        · rw [if_pos hc] at h2
          have : ef = RunEvent.exitFailure := by simpa using h2
          rw [this] at hef
          simp [fixEvent] at hef
        · rw [if_neg hc] at h2
          have : ef = RunEvent.exitSuccess := by simpa using h2
          rw [this] at hef
          simp [fixEvent] at hef
    have fnf : ∀ en, nonFixTest mods en = true → en ∉ okTrace mods 0 := by
      intro en hen hmem
      obtain ⟨j, m, hj, hEnvT, hshape⟩ := mem_okTrace mods 0 en hmem
      rcases hshape with h | h | ⟨t, h⟩
      · rw [h] at hen; simp [nonFixTest] at hen
      · rw [h] at hen; simp [nonFixTest] at hen
      · rw [h] at hen
        simp only [nonFixTest, Nat.zero_add, hj] at hen
        rw [hEnvT] at hen
        exact absurd hen (by decide)
    refine ⟨?_, ?_, ?_, ?_⟩
    · intro p q ef en hp hef hq hen
      rw [heq] at hp hq
      have hplt := pos_lt_of_not_mem_right _ _ p ef hp (ffix ef hef)
      have hqge := pos_ge_of_not_mem_left _ _ q en hq (fnf en hen)
      omega
    · intro q en _ _ j m hj henvT
      have hd := envDrop_mem_okTrace mods 0 j m hj henvT
      rw [Nat.zero_add] at hd
      rw [heq]
      exact List.mem_append.mpr (Or.inl hd)
    · intro _
      rw [heq, List.append_assoc]
    · intro hf
      exact absurd hf hfail

/-- C6 (witness): with a non-fixture module listed first and a fixture
module second, the fixture batch still runs (and is released) before the
pooled non-fixture test, which runs in the final batch. -/
theorem c6_witness :
    (1 : Nat) < 3 ∧
      RunEvent.envDrop 1 ∈ runner_exec [⟨false, [true]⟩, ⟨true, [true]⟩] ∧
      runner_exec [⟨false, [true]⟩, ⟨true, [true]⟩] =
        okTrace [⟨false, [true]⟩, ⟨true, [true]⟩] 0 ++
          poolEvents (collectPool [⟨false, [true]⟩, ⟨true, [true]⟩] 0) ++
          [if poolFails (collectPool [⟨false, [true]⟩, ⟨true, [true]⟩] 0) then
              RunEvent.exitFailure
           else RunEvent.exitSuccess] :=
  ⟨(c6_runner_isolation [⟨false, [true]⟩, ⟨true, [true]⟩]).1 1 3
      (RunEvent.runTest 1 0) (RunEvent.runTest 0 0) (by decide) (by decide)
      (by decide) (by decide),
   (c6_runner_isolation [⟨false, [true]⟩, ⟨true, [true]⟩]).2.1 3
      (RunEvent.runTest 0 0) (by decide) (by decide) 1 ⟨true, [true]⟩
      (by decide) rfl,
   (c6_runner_isolation [⟨false, [true]⟩, ⟨true, [true]⟩]).2.2.1
      (by decide)⟩

end TestWith
